/-
Verification of the review-scheduling engine and session-selection logic of
the dictation-assistant application.

The embedding follows the TypeScript source:
  - src/types.ts                      (WordItem record, settings, play order)
  - src/services/storageService.ts    (calculateNextReview)
  - src/App.tsx                       (allDueWords, handleSmartReview,
                                       handleReviewGroup, handleUpdateWordStatus)
  - src/components/DictationSession.tsx (queue initialisation / shuffle)

JavaScript numbers are modelled as exact rationals (ℚ) where fractional
arithmetic occurs (easeFactor, smart-review scores) and as integers (ℤ)
for timestamps, streaks and intervals.  Optional fields of the record
(totalAttempts, totalWrong, lastWrongAt in types.ts) are modelled as
Option, and the JavaScript `x || 0` defaulting is `Option.getD 0`
(note that in JavaScript both `undefined` and `0` are falsy, which
`getD 0` reproduces for these numeric fields).
-/
import Mathlib

namespace DictationAssistant

/-- WordItem from src/types.ts.  `groupTitle`, `totalAttempts`, `totalWrong`
and `lastWrongAt` are optional in the source (`?:`), and `lastReviewed` may
be null; all are Option here.  Timestamps are milliseconds since the epoch
(ℤ), `interval` is a number of days (ℤ), `easeFactor` is a float (ℚ). -/
structure WordItem where
  id : String
  text : String
  groupTitle : Option String
  addedAt : Int
  lastReviewed : Option Int
  nextReview : Int
  streak : Int
  easeFactor : Rat
  interval : Int
  totalAttempts : Option Nat
  totalWrong : Option Nat
  lastWrongAt : Option Int
  deriving DecidableEq, Repr

/-- ONE_DAY from src/services/storageService.ts: 24 * 60 * 60 * 1000 ms. -/
def ONE_DAY : Int := 24 * 60 * 60 * 1000

/-- JavaScript Math.round: round to nearest integer, halves toward +∞,
i.e. ⌊x + 1/2⌋. -/
def jsRound (x : Rat) : Int := ⌊x + 1 / 2⌋

/-- calculateNextReview from src/services/storageService.ts, with the
`Date.now()` read at the top of the function passed explicitly as `now`
(the spec calls this operation `applyOutcome(record, isCorrect, now)`).
The float literals 1.3, 0.1, 0.2 of the source are the exact rationals
13/10, 1/10, 2/10. -/
def calculateNextReview (word : WordItem) (isCorrect : Bool) (now : Int) :
    WordItem :=
  -- migration defaults: totalAttempts = (totalAttempts || 0) + 1;
  -- totalWrong = totalWrong || 0
  let totalAttempts := word.totalAttempts.getD 0 + 1
  let totalWrong := word.totalWrong.getD 0
  if isCorrect then
    -- streak = Math.max(streak + 1, 10)
    let streak := max (word.streak + 1) 10
    -- interval = interval > 14 ? Math.round(interval * 1.3) : 14
    let interval : Int :=
      if word.interval > 14 then jsRound ((word.interval : Rat) * (13 / 10))
      else 14
    -- easeFactor = Math.max(1.3, easeFactor + 0.1)
    let easeFactor := max ((13 : Rat) / 10) (word.easeFactor + 1 / 10)
    -- nextReviewTime = interval === 0 ? now : now + interval * ONE_DAY
    let nextReviewTime := if interval = 0 then now else now + interval * ONE_DAY
    { word with
      lastReviewed := some now
      nextReview := nextReviewTime
      streak := streak
      easeFactor := easeFactor
      interval := interval
      totalAttempts := some totalAttempts
      totalWrong := some totalWrong }
  else
    -- streak = 0; interval = 0; easeFactor = Math.max(1.3, easeFactor - 0.2);
    -- totalWrong += 1; lastWrongAt = now
    let streak : Int := 0
    let interval : Int := 0
    let easeFactor := max ((13 : Rat) / 10) (word.easeFactor - 2 / 10)
    let totalWrong := totalWrong + 1
    let nextReviewTime := if interval = 0 then now else now + interval * ONE_DAY
    { word with
      lastReviewed := some now
      nextReview := nextReviewTime
      streak := streak
      easeFactor := easeFactor
      interval := interval
      totalAttempts := some totalAttempts
      totalWrong := some totalWrong
      lastWrongAt := some now }

/-- Data-model invariants of section 3 of the spec, on the fields the
scheduler reads: non-negative streak and interval, easeFactor at least 1.3,
and the attempt counters present (normalised records) with
totalAttempts ≥ totalWrong. -/
def Invariants (w : WordItem) : Prop :=
  0 ≤ w.streak ∧ 0 ≤ w.interval ∧ (13 : Rat) / 10 ≤ w.easeFactor ∧
    w.totalAttempts.isSome ∧ w.totalWrong.isSome ∧
    w.totalWrong.getD 0 ≤ w.totalAttempts.getD 0

instance (w : WordItem) : Decidable (Invariants w) := by
  unfold Invariants; infer_instance

/-- A freshly created word record, as built in handleSaveWords in
src/App.tsx (both CREATE MODE and the new-word case of EDIT MODE):
nextReview = now (immediately due), streak 0, easeFactor 2.5, interval 0,
zero attempt counters. -/
def mkNewWord (wid text title : String) (now : Int) : WordItem :=
  { id := wid
    text := text
    groupTitle := some title
    addedAt := now
    lastReviewed := none
    nextReview := now
    streak := 0
    easeFactor := 5 / 2
    interval := 0
    totalAttempts := some 0
    totalWrong := some 0
    lastWrongAt := none }

/-- Target status of the manual override (handleUpdateWordStatus in
src/App.tsx). -/
inductive WordStatus
  | REVIEW
  | MASTERED
  deriving DecidableEq, Repr

/-- The per-record branch of handleUpdateWordStatus in src/App.tsx: MASTERED
sets streak 10, interval 30, nextReview = now + 30 days, lastReviewed = now;
REVIEW sets streak 0, interval 0, nextReview = now, easeFactor 2.5.  The
several Date.now() reads inside the handler are the single parameter
`now`. -/
def applyStatusOverride (w : WordItem) (status : WordStatus) (now : Int) :
    WordItem :=
  match status with
  | .MASTERED =>
      { w with
        streak := 10
        interval := 30
        nextReview := now + 30 * ONE_DAY
        lastReviewed := some now }
  | .REVIEW =>
      { w with
        streak := 0
        interval := 0
        nextReview := now
        easeFactor := 5 / 2 }

/-- handleUpdateWordStatus from src/App.tsx: map over the collection,
applying the override to the record whose id matches the target. -/
def handleUpdateWordStatus (words : List WordItem) (targetWord : WordItem)
    (status : WordStatus) (now : Int) : List WordItem :=
  words.map fun w =>
    if w.id = targetWord.id then applyStatusOverride w status now else w

/-- allDueWords from src/App.tsx: every word with nextReview ≤ now. -/
def allDueWords (words : List WordItem) (now : Int) : List WordItem :=
  words.filter fun w => decide (w.nextReview ≤ now)

/-- Outcome of handleReviewGroup: either a session is started with a
non-empty word list, or the handler alerts "nothing to review" and
returns without starting a session. -/
inductive ReviewGroupResult
  | nothingToReview
  | startSession (ws : List WordItem)
  deriving DecidableEq, Repr

/-- handleReviewGroup from src/App.tsx: with the onlyErrors flag the group
is restricted to its due words (nextReview ≤ now); when nothing qualifies
the handler alerts and returns early instead of starting a session. -/
def handleReviewGroup (groupWords : List WordItem) (onlyErrors : Bool)
    (now : Int) : ReviewGroupResult :=
  if onlyErrors then
    let targetWords := groupWords.filter fun w => decide (w.nextReview ≤ now)
    if targetWords.isEmpty then .nothingToReview
    else .startSession targetWords
  else
    .startSession groupWords

/-- PlaybackOrder from src/types.ts. -/
inductive PlaybackOrder
  | SEQUENTIAL
  | REVERSE
  | SHUFFLE
  deriving DecidableEq, Repr

/-- DictationSettings from src/types.ts (fields read by the session
selection and ordering logic; playback-only fields are kept for
completeness). -/
structure DictationSettings where
  voice : String
  intervalSeconds : Int
  order : PlaybackOrder
  autoRepeat : Int
  maxReviewBatchSize : Nat
  silenceThreshold : Int
  deriving DecidableEq, Repr

/-- DEFAULT_SETTINGS from src/types.ts. -/
def DEFAULT_SETTINGS : DictationSettings :=
  { voice := ""
    intervalSeconds := 5
    order := .SEQUENTIAL
    autoRepeat := 1
    maxReviewBatchSize := 10
    silenceThreshold := 500 }

/-- Smart-review priority score, from the comparator in handleSmartReview
(src/App.tsx): wrong = totalWrong || 0; time = lastWrongAt ? now -
lastWrongAt : 0 (note JavaScript truthiness: both null and the timestamp 0
give time 0); score = wrong * 2 + time / ONE_DAY. -/
def smartScore (now : Int) (w : WordItem) : Rat :=
  let wrong : Rat := (w.totalWrong.getD 0 : Nat)
  let time : Rat :=
    match w.lastWrongAt with
    | some t => if t = 0 then 0 else ((now - t : Int) : Rat)
    | none => 0
  wrong * 2 + time / ((ONE_DAY : Int) : Rat)

/-- The order produced by the comparator (a, b) => scoreB - scoreA under a
stable sort: a may precede b exactly when the comparator is ≤ 0, i.e.
score b ≤ score a. -/
def smartReviewOrder (now : Int) (a b : WordItem) : Bool :=
  decide (smartScore now b ≤ smartScore now a)

/-- handleSmartReview from src/App.tsx: candidates are the words with
(totalWrong || 0) > 0, sorted by the descending-score comparator
(JavaScript Array.prototype.sort is stable, modelled by the stable
List.mergeSort), then sliced to limit = maxReviewBatchSize || 10.  The
alert shown when there are no candidates is caller feedback; the selection
in that case is empty. -/
def handleSmartReview (words : List WordItem) (settings : DictationSettings)
    (now : Int) : List WordItem :=
  let candidates := words.filter fun w => decide (0 < w.totalWrong.getD 0)
  let sortedCandidates := candidates.mergeSort (smartReviewOrder now)
  let limit :=
    if settings.maxReviewBatchSize = 0 then 10 else settings.maxReviewBatchSize
  sortedCandidates.take limit

/-- One step of the comparison sort behind `queue.sort(() => Math.random()
- 0.5)` in src/components/DictationSession.tsx: insert x into a list,
consuming one random draw (coin k) per comparator call; a true draw means
the comparator returned a negative number. -/
def jsInsert (coin : Nat → Bool) (x : WordItem) :
    List WordItem → Nat → List WordItem × Nat
  | [], k => ([x], k)
  | y :: ys, k =>
      if coin k then (x :: y :: ys, k + 1)
      else
        let r := jsInsert coin x ys (k + 1)
        (y :: r.1, r.2)

/-- The comparison sort behind `queue.sort(() => Math.random() - 0.5)`:
ECMAScript leaves the resulting order implementation-defined for an
inconsistent comparator, so we model the engine sort as a comparison sort
whose comparator consumes successive random draws from `coin`. -/
def jsSortRandom (coin : Nat → Bool) :
    List WordItem → Nat → List WordItem × Nat
  | [], k => ([], k)
  | x :: xs, k =>
      let r := jsSortRandom coin xs k
      jsInsert coin x r.1 r.2

/-- Queue initialisation from src/components/DictationSession.tsx:
queue = [...words]; REVERSE reverses it, SHUFFLE applies the
random-comparator sort, SEQUENTIAL keeps it as is. -/
def initPlayQueue (order : PlaybackOrder) (coin : Nat → Bool)
    (words : List WordItem) : List WordItem :=
  match order with
  | .SEQUENTIAL => words
  | .REVERSE => words.reverse
  | .SHUFFLE => (jsSortRandom coin words 0).1

/-- Reference time for the smart-review example of the spec. -/
def exampleNow : Int := 11 * ONE_DAY

/-- Example word A of the spec: totalWrong 3, last wrong 1 day before the
reference time, score 3 * 2 + 1 = 7. -/
def wordA : WordItem :=
  { mkNewWord "A" "alpha" "g" 0 with
    totalAttempts := some 3
    totalWrong := some 3
    lastWrongAt := some (10 * ONE_DAY) }

/-- Example word B of the spec: totalWrong 1, last wrong 10 days before the
reference time, score 1 * 2 + 10 = 12. -/
def wordB : WordItem :=
  { mkNewWord "B" "beta" "g" 0 with
    totalAttempts := some 1
    totalWrong := some 1
    lastWrongAt := some ONE_DAY }

/-- Unfolding of calculateNextReview for a correct outcome. -/
theorem calculateNextReview_true (w : WordItem) (now : Int) :
    calculateNextReview w true now =
      { w with
        lastReviewed := some now
        nextReview :=
          if (if w.interval > 14 then jsRound ((w.interval : Rat) * (13 / 10))
              else (14 : Int)) = 0 then now
          else
            now + (if w.interval > 14 then
                jsRound ((w.interval : Rat) * (13 / 10))
              else (14 : Int)) * ONE_DAY
        streak := max (w.streak + 1) 10
        easeFactor := max ((13 : Rat) / 10) (w.easeFactor + 1 / 10)
        interval :=
          if w.interval > 14 then jsRound ((w.interval : Rat) * (13 / 10))
          else 14
        totalAttempts := some (w.totalAttempts.getD 0 + 1)
        totalWrong := some (w.totalWrong.getD 0) } := rfl

/-- Unfolding of calculateNextReview for an incorrect outcome. -/
theorem calculateNextReview_false (w : WordItem) (now : Int) :
    calculateNextReview w false now =
      { w with
        lastReviewed := some now
        nextReview := now
        streak := 0
        easeFactor := max ((13 : Rat) / 10) (w.easeFactor - 2 / 10)
        interval := 0
        totalAttempts := some (w.totalAttempts.getD 0 + 1)
        totalWrong := some (w.totalWrong.getD 0 + 1)
        lastWrongAt := some now } := rfl

/-- On integer intervals strictly above 14, Math.round(interval * 1.3) is at
least 20, in particular nonzero. -/
theorem jsRound_interval_pos {n : Int} (h : 14 < n) :
    20 ≤ jsRound ((n : Rat) * (13 / 10)) := by
  have h15 : (15 : Int) ≤ n := h
  have hq : (39 : Rat) / 2 ≤ (n : Rat) * (13 / 10) := by
    have : (15 : Rat) ≤ (n : Rat) := by exact_mod_cast h15
    nlinarith
  have : (20 : Rat) ≤ (n : Rat) * (13 / 10) + 1 / 2 := by linarith
  unfold jsRound
  exact Int.le_floor.mpr (by exact_mod_cast this)

/-- C1: for every record satisfying the data-model invariants and every
timestamp now, a correct outcome yields streak max(streak+1, 10) (hence at
least 10), interval round(interval * 1.3) when interval > 14 and otherwise
14, easeFactor max(1.3, easeFactor + 0.1), totalWrong and lastWrongAt
unchanged, totalAttempts incremented, lastReviewed = now, and
nextReview = now + interval * ONE_DAY for the new interval. -/
theorem applyOutcome_correct_spec (w : WordItem) (now : Int)
    (hinv : Invariants w) :
    (calculateNextReview w true now).streak = max (w.streak + 1) 10 ∧
    10 ≤ (calculateNextReview w true now).streak ∧
    (calculateNextReview w true now).interval =
      (if w.interval > 14 then jsRound ((w.interval : Rat) * (13 / 10))
       else 14) ∧
    (calculateNextReview w true now).easeFactor =
      max ((13 : Rat) / 10) (w.easeFactor + 1 / 10) ∧
    (calculateNextReview w true now).totalWrong = w.totalWrong ∧
    (calculateNextReview w true now).lastWrongAt = w.lastWrongAt ∧
    (calculateNextReview w true now).totalAttempts =
      some (w.totalAttempts.getD 0 + 1) ∧
    (calculateNextReview w true now).lastReviewed = some now ∧
    (calculateNextReview w true now).nextReview =
      now + (calculateNextReview w true now).interval * ONE_DAY := by
  obtain ⟨hs, hi, he, hta, htw, hwa⟩ := hinv
  obtain ⟨n, hn⟩ := Option.isSome_iff_exists.mp htw
  have hiv : (if w.interval > 14 then jsRound ((w.interval : Rat) * (13 / 10))
      else (14 : Int)) ≠ 0 := by
    split
    · next h => have := jsRound_interval_pos h; omega
    · omega
  rw [calculateNextReview_true]
  refine ⟨rfl, le_max_right _ _, rfl, rfl, ?_, rfl, rfl, rfl, ?_⟩
  · simp [hn]
  · simp only [if_neg hiv]

/-- C1 witness: the invariant hypothesis is satisfiable and the theorem
holds at a concrete fresh record. -/
theorem applyOutcome_correct_spec_witness :
    Invariants
      ⟨"w1", "apple", some "g", 0, none, 0, 0, 5 / 2, 0, some 0, some 0,
        none⟩ ∧
    (calculateNextReview
        ⟨"w1", "apple", some "g", 0, none, 0, 0, 5 / 2, 0, some 0, some 0,
          none⟩ true 1000).streak =
      max (0 + 1) 10 := by
  constructor
  · norm_num [Invariants]
  · exact (applyOutcome_correct_spec _ 1000 (by norm_num [Invariants])).1

/-- C2: for every record satisfying the data-model invariants and every
timestamp now, an incorrect outcome yields streak 0, interval 0,
nextReview = now, totalWrong incremented, lastWrongAt = now, easeFactor
max(1.3, easeFactor - 0.2), totalAttempts incremented, lastReviewed = now. -/
theorem applyOutcome_incorrect_spec (w : WordItem) (now : Int)
    (hinv : Invariants w) :
    (calculateNextReview w false now).streak = 0 ∧
    (calculateNextReview w false now).interval = 0 ∧
    (calculateNextReview w false now).nextReview = now ∧
    (calculateNextReview w false now).totalWrong =
      some (w.totalWrong.getD 0 + 1) ∧
    (calculateNextReview w false now).lastWrongAt = some now ∧
    (calculateNextReview w false now).easeFactor =
      max ((13 : Rat) / 10) (w.easeFactor - 2 / 10) ∧
    (calculateNextReview w false now).totalAttempts =
      some (w.totalAttempts.getD 0 + 1) ∧
    (calculateNextReview w false now).lastReviewed = some now := by
  simp [calculateNextReview]

/-- C2 witness: the invariant hypothesis is satisfiable and the theorem
holds at a concrete fresh record. -/
theorem applyOutcome_incorrect_spec_witness :
    Invariants
      ⟨"w2", "pear", some "g", 0, none, 0, 0, 5 / 2, 0, some 0, some 0,
        none⟩ ∧
    (calculateNextReview
        ⟨"w2", "pear", some "g", 0, none, 0, 0, 5 / 2, 0, some 0, some 0,
          none⟩ false 1000).streak = 0 := by
  constructor
  · norm_num [Invariants]
  · exact (applyOutcome_incorrect_spec _ 1000 (by norm_num [Invariants])).1

/-- Interval component of a correct outcome, for tracing iterated calls. -/
theorem interval_after_correct (w : WordItem) (now : Int) :
    (calculateNextReview w true now).interval =
      if w.interval > 14 then jsRound ((w.interval : Rat) * (13 / 10))
      else 14 := rfl

/-- C3 counterexample: three consecutive correct outcomes on a fresh record
(interval 0) yield interval 14 after the third call as well, not 18,
because the growth branch requires interval strictly greater than 14. -/
theorem threeCorrect_interval_counterexample :
    (calculateNextReview (calculateNextReview (calculateNextReview
        (mkNewWord "w3" "cat" "g" 0) true 0) true 0) true 0).interval = 14 ∧
    ¬ (calculateNextReview (calculateNextReview (calculateNextReview
        (mkNewWord "w3" "cat" "g" 0) true 0) true 0) true 0).interval =
        18 := by
  have h1 : (calculateNextReview (mkNewWord "w3" "cat" "g" 0) true 0).interval
      = 14 := by
    rw [interval_after_correct]
    norm_num [mkNewWord]
  have h2 : (calculateNextReview (calculateNextReview
      (mkNewWord "w3" "cat" "g" 0) true 0) true 0).interval = 14 := by
    rw [interval_after_correct, h1]
    norm_num
  have h3 : (calculateNextReview (calculateNextReview (calculateNextReview
      (mkNewWord "w3" "cat" "g" 0) true 0) true 0) true 0).interval = 14 := by
    rw [interval_after_correct, h2]
    norm_num
  exact ⟨h3, by rw [h3]; norm_num⟩

/-- C3 amended: starting from a record with interval 0, three consecutive
correct outcomes (each result fed back as the next input) produce interval
14 after each of the three calls; the third stays at 14 rather than
round(14 * 1.3) = 18 because 14 is not strictly greater than 14. -/
theorem threeCorrect_intervals (w : WordItem) (n1 n2 n3 : Int)
    (h0 : w.interval = 0) :
    (calculateNextReview w true n1).interval = 14 ∧
    (calculateNextReview (calculateNextReview w true n1) true n2).interval =
      14 ∧
    (calculateNextReview (calculateNextReview (calculateNextReview w true n1)
        true n2) true n3).interval = 14 := by
  have h1 : (calculateNextReview w true n1).interval = 14 := by
    rw [interval_after_correct, h0]
    norm_num
  have h2 : (calculateNextReview (calculateNextReview w true n1) true
      n2).interval = 14 := by
    rw [interval_after_correct, h1]
    norm_num
  have h3 : (calculateNextReview (calculateNextReview (calculateNextReview w
      true n1) true n2) true n3).interval = 14 := by
    rw [interval_after_correct, h2]
    norm_num
  exact ⟨h1, h2, h3⟩

/-- C3 witness: the amended theorem applied to a concrete fresh record. -/
theorem threeCorrect_intervals_witness :
    (mkNewWord "w4" "dog" "g" 0).interval = 0 ∧
    (calculateNextReview (mkNewWord "w4" "dog" "g" 0) true 0).interval =
      14 :=
  ⟨rfl, (threeCorrect_intervals (mkNewWord "w4" "dog" "g" 0) 0 0 0 rfl).1⟩

/-- C5 counterexample: the MASTERED override does not set easeFactor; two
records identical except for easeFactor keep their distinct easeFactors
after the override, so the override does not set all four scheduling
fields to values independent of the prior record. -/
theorem manualOverride_counterexample :
    (applyStatusOverride (mkNewWord "a" "x" "g" 0) .MASTERED 0).easeFactor ≠
      (applyStatusOverride
        { mkNewWord "a" "x" "g" 0 with easeFactor := 13 / 10 }
        .MASTERED 0).easeFactor := by
  norm_num [applyStatusOverride, mkNewWord]

/-- C5 amended: the REVIEW override sets all four of streak, interval,
nextReview and easeFactor to fixed "just reset" values (0, 0, now, 2.5);
the MASTERED override sets streak, interval and nextReview to fixed
"mastered for 30 days" values (10, 30, now + 30 days, with lastReviewed =
now) but leaves easeFactor at its prior value. -/
theorem manualOverride_spec (w : WordItem) (now : Int) :
    (applyStatusOverride w .REVIEW now).streak = 0 ∧
    (applyStatusOverride w .REVIEW now).interval = 0 ∧
    (applyStatusOverride w .REVIEW now).nextReview = now ∧
    (applyStatusOverride w .REVIEW now).easeFactor = 5 / 2 ∧
    (applyStatusOverride w .MASTERED now).streak = 10 ∧
    (applyStatusOverride w .MASTERED now).interval = 30 ∧
    (applyStatusOverride w .MASTERED now).nextReview = now + 30 * ONE_DAY ∧
    (applyStatusOverride w .MASTERED now).easeFactor = w.easeFactor ∧
    (applyStatusOverride w .MASTERED now).lastReviewed = some now :=
  ⟨rfl, rfl, rfl, rfl, rfl, rfl, rfl, rfl, rfl⟩

/-- C6: all-due selection contains exactly the words of the collection with
nextReview ≤ now; the boundary is inclusive (nextReview = now is in) and
nextReview = now + 1 is out. -/
theorem allDueWords_spec (words : List WordItem) (now : Int) (w : WordItem)
    (hw : w ∈ words) :
    (w ∈ allDueWords words now ↔ w.nextReview ≤ now) ∧
    (w.nextReview = now → w ∈ allDueWords words now) ∧
    (w.nextReview = now + 1 → w ∉ allDueWords words now) := by
  refine ⟨?_, ?_, ?_⟩
  · simp [allDueWords, List.mem_filter, hw]
  · intro h
    simp [allDueWords, List.mem_filter, hw, h]
  · intro h
    simp [allDueWords, List.mem_filter, hw, h]

/-- C6 witness: a singleton collection whose word is due exactly now. -/
theorem allDueWords_spec_witness :
    mkNewWord "w5" "eel" "g" 0 ∈ [mkNewWord "w5" "eel" "g" 0] ∧
    (mkNewWord "w5" "eel" "g" 0 ∈ allDueWords [mkNewWord "w5" "eel" "g" 0] 0
      ↔ (mkNewWord "w5" "eel" "g" 0).nextReview ≤ 0) :=
  ⟨List.mem_singleton.mpr rfl,
    (allDueWords_spec [mkNewWord "w5" "eel" "g" 0] 0 _
      (List.mem_singleton.mpr rfl)).1⟩

/-- C7: with the only-errors flag, the group is restricted to words with
nextReview ≤ now; when nothing qualifies the handler signals "nothing to
review", and a started session is exactly the non-empty filtered list. -/
theorem handleReviewGroup_onlyErrors_spec (groupWords : List WordItem)
    (now : Int) :
    ((groupWords.filter fun w => decide (w.nextReview ≤ now)) = [] →
      handleReviewGroup groupWords true now = .nothingToReview) ∧
    (∀ ws, handleReviewGroup groupWords true now = .startSession ws →
      ws = groupWords.filter (fun w => decide (w.nextReview ≤ now)) ∧
      ws ≠ []) := by
  constructor
  · intro h
    simp [handleReviewGroup, h]
  · intro ws h
    by_cases he :
        (groupWords.filter fun w => decide (w.nextReview ≤ now)) = []
    · simp [handleReviewGroup, he] at h
    · simp only [handleReviewGroup, if_true, List.isEmpty_iff, he,
        if_false, reduceIte] at h
      cases h
      exact ⟨rfl, he⟩

/-- C7 witness: a group whose only word is due strictly later than now. -/
theorem handleReviewGroup_onlyErrors_spec_witness :
    (([mkNewWord "w6" "fox" "g" 1].filter fun w =>
        decide (w.nextReview ≤ 0)) = []) ∧
    handleReviewGroup [mkNewWord "w6" "fox" "g" 1] true 0 =
      .nothingToReview :=
  ⟨rfl,
    (handleReviewGroup_onlyErrors_spec [mkNewWord "w6" "fox" "g" 1] 0).1 rfl⟩

/-- C8: the invariant easeFactor ≥ 1.3 is preserved by both outcomes of the
scheduler and by both manual overrides. -/
theorem easeFactor_floor_preserved (w : WordItem) (now : Int)
    (h : (13 : Rat) / 10 ≤ w.easeFactor) :
    (13 : Rat) / 10 ≤ (calculateNextReview w true now).easeFactor ∧
    (13 : Rat) / 10 ≤ (calculateNextReview w false now).easeFactor ∧
    (13 : Rat) / 10 ≤ (applyStatusOverride w .REVIEW now).easeFactor ∧
    (13 : Rat) / 10 ≤ (applyStatusOverride w .MASTERED now).easeFactor := by
  refine ⟨?_, ?_, ?_, ?_⟩
  · exact le_max_left _ _
  · exact le_max_left _ _
  · show (13 : Rat) / 10 ≤ 5 / 2
    norm_num
  · exact h

/-- C8 witness: the floor hypothesis holds at a fresh record and is
preserved there. -/
theorem easeFactor_floor_preserved_witness :
    (13 : Rat) / 10 ≤ (mkNewWord "w7" "gnu" "g" 0).easeFactor ∧
    (13 : Rat) / 10 ≤
      (calculateNextReview (mkNewWord "w7" "gnu" "g" 0) true 0).easeFactor :=
  ⟨by norm_num [mkNewWord],
    (easeFactor_floor_preserved (mkNewWord "w7" "gnu" "g" 0) 0
      (by norm_num [mkNewWord])).1⟩

/-- Inserting with the random-draw comparator permutes: the result is the
inserted element together with the original list. -/
theorem jsInsert_perm (coin : Nat → Bool) (x : WordItem) :
    ∀ (l : List WordItem) (k : Nat), List.Perm (jsInsert coin x l k).1 (x :: l)
  | [], _ => by simp [jsInsert]
  | y :: ys, k => by
    simp only [jsInsert]
    split
    · exact List.Perm.refl _
    · exact ((jsInsert_perm coin x ys (k + 1)).cons y).trans
        (List.Perm.swap x y ys)

/-- The random-comparator sort permutes its input. -/
theorem jsSortRandom_perm (coin : Nat → Bool) :
    ∀ (l : List WordItem) (k : Nat), List.Perm (jsSortRandom coin l k).1 l
  | [], _ => by simp [jsSortRandom]
  | x :: xs, k => by
    simp only [jsSortRandom]
    exact (jsInsert_perm coin x _ _).trans
      ((jsSortRandom_perm coin xs k).cons x)

/-- C9: the SHUFFLE presentation order is a permutation of its input for
every sequence of random draws: the queue is a permutation of the
selection, with the same length and the same multiset of word ids. -/
theorem shuffle_perm (coin : Nat → Bool) (words : List WordItem) :
    List.Perm (initPlayQueue .SHUFFLE coin words) words ∧
    (initPlayQueue .SHUFFLE coin words).length = words.length ∧
    List.Perm ((initPlayQueue .SHUFFLE coin words).map WordItem.id)
      (words.map WordItem.id) := by
  have h : List.Perm (jsSortRandom coin words 0).1 words :=
    jsSortRandom_perm coin words 0
  exact ⟨h, h.length_eq, h.map _⟩

/-- C10: both outcomes leave the non-scheduling fields id, text, groupTitle
and addedAt of the record unchanged. -/
theorem applyOutcome_frame (w : WordItem) (isCorrect : Bool) (now : Int) :
    (calculateNextReview w isCorrect now).id = w.id ∧
    (calculateNextReview w isCorrect now).text = w.text ∧
    (calculateNextReview w isCorrect now).groupTitle = w.groupTitle ∧
    (calculateNextReview w isCorrect now).addedAt = w.addedAt := by
  cases isCorrect <;> exact ⟨rfl, rfl, rfl, rfl⟩

/-- The descending-score order is transitive. -/
theorem smartReviewOrder_trans (now : Int) (a b c : WordItem)
    (hab : smartReviewOrder now a b = true)
    (hbc : smartReviewOrder now b c = true) :
    smartReviewOrder now a c = true := by
  simp only [smartReviewOrder, decide_eq_true_eq] at *
  exact le_trans hbc hab

/-- The descending-score order is total. -/
theorem smartReviewOrder_total (now : Int) (a b : WordItem) :
    (smartReviewOrder now a b || smartReviewOrder now b a) = true := by
  simp only [smartReviewOrder, Bool.or_eq_true, decide_eq_true_eq]
  exact le_total (smartScore now b) (smartScore now a)

/-- Sorting a two-element list whose first element may not precede the
second swaps them. -/
theorem mergeSort_pair_of_not_le {le : WordItem → WordItem → Bool}
    (trans : ∀ a b c, le a b → le b c → le a c)
    (total : ∀ a b, (le a b || le b a) = true) {x y : WordItem}
    (hxy : le x y = false) :
    List.mergeSort [x, y] le = [y, x] := by
  have hp := List.mergeSort_perm [x, y] le
  have hs := List.sorted_mergeSort trans (fun a b => total a b) [x, y]
  have hlen : (List.mergeSort [x, y] le).length = 2 := by
    rw [hp.length_eq]
    rfl
  obtain ⟨a, b, hab⟩ := List.length_eq_two.mp hlen
  rw [hab] at hp hs ⊢
  by_cases hax : a = x
  · exfalso
    have hby : b = y := by
      have h2 : List.Perm [b] [y] := by
        rw [hax] at hp
        exact hp.cons_inv
      simpa using h2
    have hxyt : le x y = true := by
      rw [hax, hby] at hs
      exact List.rel_of_pairwise_cons hs (by simp)
    rw [hxy] at hxyt
    cases hxyt
  · have hay : a = y := by
      have hm : a ∈ [x, y] := hp.subset (by simp)
      simp only [List.mem_cons, List.mem_singleton, List.not_mem_nil,
        or_false] at hm
      tauto
    by_cases hbx : b = x
    · rw [hay, hbx]
    · exfalso
      have hby : b = y := by
        have hm : b ∈ [x, y] := hp.subset (by simp)
        simp only [List.mem_cons, List.mem_singleton, List.not_mem_nil,
          or_false] at hm
        tauto
      have hxmem : x ∈ [a, b] := hp.symm.subset (by simp)
      rw [hay, hby] at hxmem
      simp only [List.mem_cons, List.mem_singleton, List.not_mem_nil,
        or_false, or_self] at hxmem
      have ht := total x y
      rw [hxmem] at hxy ht
      rw [hxy] at ht
      simp at ht

/-- C4: the smart-review selection takes the words with totalWrong > 0
(regardless of due status), sorts them descending by
score = totalWrong * 2 + (now - lastWrongAt) / ONE_DAY with the stable
sort keeping ties in input order, and truncates to maxReviewBatchSize
(default 10): the selection is exactly the take of the sorted candidates,
a permutation-prefix of the candidates; its length is
min(batch, candidates); every selected word scores at least every
unselected candidate; any candidate pair in score order (in particular any
tie) keeps its relative input order; and the concrete A/B example of the
spec puts B (score 12) before A (score 7). -/
theorem handleSmartReview_spec (words : List WordItem)
    (settings : DictationSettings) (now : Int) :
    (handleSmartReview words settings now =
      ((words.filter fun w => decide (0 < w.totalWrong.getD 0)).mergeSort
        (smartReviewOrder now)).take
        (if settings.maxReviewBatchSize = 0 then 10
         else settings.maxReviewBatchSize)) ∧
    List.Perm
      ((words.filter fun w => decide (0 < w.totalWrong.getD 0)).mergeSort
        (smartReviewOrder now))
      (words.filter fun w => decide (0 < w.totalWrong.getD 0)) ∧
    ((words.filter fun w => decide (0 < w.totalWrong.getD 0)).mergeSort
      (smartReviewOrder now)).Pairwise
        (fun a b => smartScore now b ≤ smartScore now a) ∧
    (∀ a b : WordItem,
      List.Sublist [a, b]
        (words.filter fun w => decide (0 < w.totalWrong.getD 0)) →
      smartScore now b ≤ smartScore now a →
      List.Sublist [a, b]
        ((words.filter fun w => decide (0 < w.totalWrong.getD 0)).mergeSort
          (smartReviewOrder now))) ∧
    (handleSmartReview words settings now).length =
      min (if settings.maxReviewBatchSize = 0 then 10
           else settings.maxReviewBatchSize)
        (words.filter fun w => decide (0 < w.totalWrong.getD 0)).length ∧
    (∀ s ∈ handleSmartReview words settings now,
      ∀ u ∈ ((words.filter fun w =>
          decide (0 < w.totalWrong.getD 0)).mergeSort
          (smartReviewOrder now)).drop
          (if settings.maxReviewBatchSize = 0 then 10
           else settings.maxReviewBatchSize),
        smartScore now u ≤ smartScore now s) ∧
    (∀ s ∈ handleSmartReview words settings now, 0 < s.totalWrong.getD 0) ∧
    handleSmartReview [wordA, wordB] DEFAULT_SETTINGS exampleNow =
      [wordB, wordA] := by
  have hperm := List.mergeSort_perm
    (words.filter fun w => decide (0 < w.totalWrong.getD 0))
    (smartReviewOrder now)
  have hsorted := List.sorted_mergeSort (smartReviewOrder_trans now)
    (smartReviewOrder_total now)
    (words.filter fun w => decide (0 < w.totalWrong.getD 0))
  have hdesc : ((words.filter fun w =>
      decide (0 < w.totalWrong.getD 0)).mergeSort
      (smartReviewOrder now)).Pairwise
      (fun a b => smartScore now b ≤ smartScore now a) :=
    hsorted.imp fun h => of_decide_eq_true h
  refine ⟨rfl, hperm, hdesc, ?_, ?_, ?_, ?_, ?_⟩
  · intro a b hsub hba
    exact List.pair_sublist_mergeSort (smartReviewOrder_trans now)
      (smartReviewOrder_total now)
      (by simpa [smartReviewOrder, decide_eq_true_eq] using hba) hsub
  · show (List.take _ _).length = _
    rw [List.length_take, hperm.length_eq]
  · intro s hs u hu
    have h := hdesc
    rw [← List.take_append_drop
      (if settings.maxReviewBatchSize = 0 then 10
       else settings.maxReviewBatchSize)
      ((words.filter fun w => decide (0 < w.totalWrong.getD 0)).mergeSort
        (smartReviewOrder now))] at h
    exact (List.pairwise_append.mp h).2.2 s hs u hu
  · intro s hs
    have hmem : s ∈ (words.filter fun w =>
        decide (0 < w.totalWrong.getD 0)) :=
      hperm.subset (List.take_subset _ _ hs)
    have := List.of_mem_filter hmem
    simpa using this
  · have hAB : smartReviewOrder exampleNow wordA wordB = false := by
      simp only [smartReviewOrder, smartScore, wordA, wordB, exampleNow,
        ONE_DAY, mkNewWord, decide_eq_false_iff_not, not_le]
      norm_num
    have hpair := mergeSort_pair_of_not_le (smartReviewOrder_trans exampleNow)
      (smartReviewOrder_total exampleNow) hAB
    show (([wordA, wordB].filter fun w =>
        decide (0 < w.totalWrong.getD 0)).mergeSort
        (smartReviewOrder exampleNow)).take _ = [wordB, wordA]
    have hfil : ([wordA, wordB].filter fun w =>
        decide (0 < w.totalWrong.getD 0)) = [wordA, wordB] := by
      simp [wordA, wordB, mkNewWord]
    rw [hfil, hpair]
    rfl

end DictationAssistant
